import Mathlib

/-!
Verification of the freelance-web-server HTTP backend (src/index.js).

The server is a set of stateless Express handlers over two MongoDB
collections (`users`, `tasks`).  We embed the JavaScript value model
(undefined / null / booleans / numbers with NaN and infinities / strings),
the document store as a Lean list, and each route handler as a pure
function from request data and store state to an HTTP response and a new
state.  JavaScript numbers are modelled as extended rationals: the claims
under study depend on NaN/Infinity behaviour and value pass-through, not
on double rounding.
-/

namespace FreeServer

/-- JavaScript numbers: NaN, +Infinity, -Infinity, or a finite value
(modelled as a rational; IEEE rounding is not modelled). -/
inductive JsNum where
  | nan : JsNum
  | inf : JsNum
  | ninf : JsNum
  | fin : ℚ → JsNum
deriving DecidableEq, Repr

/-- JavaScript values relevant to the request bodies of this server. -/
inductive JsVal where
  | undef : JsVal
  | null : JsVal
  | bool : Bool → JsVal
  | num : JsNum → JsVal
  | str : String → JsVal
deriving DecidableEq, Repr

/-- JavaScript truthiness: `undefined`, `null`, `false`, `0`, `NaN`
and the empty string are falsy; everything else is truthy. -/
def jsTruthy : JsVal → Bool
  | .undef => false
  | .null => false
  | .bool b => b
  | .num .nan => false
  | .num .inf => true
  | .num .ninf => true
  | .num (.fin q) => q != 0
  | .str s => s != ""

/-- Whitespace recognised when coercing strings to numbers or trimming
(ASCII subset of the ECMAScript WhiteSpace / LineTerminator sets). -/
def jsWs (c : Char) : Bool :=
  c = ' ' || c = '\t' || c = '\n' || c = '\r'

/-- Trim `jsWs` characters from both ends of a character list. -/
def trimChars (cs : List Char) : List Char :=
  ((cs.dropWhile jsWs).reverse.dropWhile jsWs).reverse

/-- `String.prototype.trim` restricted to ASCII whitespace. -/
def jsTrim (s : String) : String :=
  ⟨trimChars s.data⟩

/-- Lower-casing as used by `String.prototype.toLowerCase` (ASCII). -/
def jsToLowerCase (s : String) : String :=
  ⟨s.data.map Char.toLower⟩

def digitVal (c : Char) : Nat := c.toNat - '0'.toNat

/-- Value of a list of decimal digit characters. -/
def natOfDigits (cs : List Char) : Nat :=
  cs.foldl (fun a c => a * 10 + digitVal c) 0

def hexDigitVal (c : Char) : Nat :=
  if c.isDigit then digitVal c
  else if 'a' ≤ c && c ≤ 'f' then c.toNat - 'a'.toNat + 10
  else c.toNat - 'A'.toNat + 10

def isHexDigitChar (c : Char) : Bool :=
  c.isDigit || ('a' ≤ c && c ≤ 'f') || ('A' ≤ c && c ≤ 'F')

def natOfHexDigits (cs : List Char) : Nat :=
  cs.foldl (fun a c => a * 16 + hexDigitVal c) 0

def natOfBaseDigits (base : Nat) (cs : List Char) : Nat :=
  cs.foldl (fun a c => a * base + digitVal c) 0

/-- Ten to an integer power, as a rational. -/
def pow10 (e : Int) : ℚ :=
  if 0 ≤ e then (10 : ℚ) ^ e.toNat else ((10 : ℚ) ^ (-e).toNat)⁻¹

/-- Parse the exponent part of a decimal literal (after the `e`/`E`). -/
def parseExpPart (cs : List Char) : Option Int :=
  match cs with
  | '+' :: r => if r ≠ [] && r.all Char.isDigit then some (natOfDigits r) else none
  | '-' :: r => if r ≠ [] && r.all Char.isDigit then some (-(natOfDigits r : Int)) else none
  | r => if r ≠ [] && r.all Char.isDigit then some (natOfDigits r) else none

/-- Parse an unsigned ECMAScript decimal literal
(`Digits [. Digits] [Exp]` or `. Digits [Exp]`). -/
def parseDecCore (cs : List Char) : Option ℚ :=
  let ip := cs.takeWhile Char.isDigit
  let r1 := cs.dropWhile Char.isDigit
  match r1 with
  | [] => if ip.isEmpty then none else some (natOfDigits ip : ℚ)
  | '.' :: r2 =>
    let fp := r2.takeWhile Char.isDigit
    let r3 := r2.dropWhile Char.isDigit
    if ip.isEmpty && fp.isEmpty then none
    else
      let base : ℚ := (natOfDigits ip : ℚ) + (natOfDigits fp : ℚ) / (10 : ℚ) ^ fp.length
      match r3 with
      | [] => some base
      | e :: r4 =>
        if e = 'e' || e = 'E' then (parseExpPart r4).map (fun ex => base * pow10 ex)
        else none
  | e :: r4 =>
    if e = 'e' || e = 'E' then
      if ip.isEmpty then none
      else (parseExpPart r4).map (fun ex => (natOfDigits ip : ℚ) * pow10 ex)
    else none

/-- Parse an unsigned numeric literal: `Infinity`, a radix-prefixed
integer (`0x/0o/0b`), or a decimal literal. -/
def parseUnsignedNum (cs : List Char) : Option JsNum :=
  if cs = "Infinity".data then some .inf
  else
    match cs with
    | '0' :: x :: r =>
      if x = 'x' || x = 'X' then
        if r ≠ [] && r.all isHexDigitChar then some (.fin (natOfHexDigits r : ℚ)) else none
      else if x = 'o' || x = 'O' then
        if r ≠ [] && r.all (fun c => '0' ≤ c && c ≤ '7') then
          some (.fin (natOfBaseDigits 8 r : ℚ)) else none
      else if x = 'b' || x = 'B' then
        if r ≠ [] && r.all (fun c => c = '0' || c = '1') then
          some (.fin (natOfBaseDigits 2 r : ℚ)) else none
      else (parseDecCore cs).map .fin
    | _ => (parseDecCore cs).map .fin

/-- ECMAScript StringToNumber: trim whitespace, empty means `0`,
optional sign followed by `Infinity` or a decimal literal (radix
prefixes are only allowed unsigned); anything else is NaN. -/
def strToNumber (s : String) : JsNum :=
  let cs := trimChars s.data
  if cs.isEmpty then .fin 0
  else
    match cs with
    | '+' :: r =>
      if r = "Infinity".data then .inf
      else match parseDecCore r with
        | some q => .fin q
        | none => .nan
    | '-' :: r =>
      if r = "Infinity".data then .ninf
      else match parseDecCore r with
        | some q => .fin (-q)
        | none => .nan
    | _ =>
      match parseUnsignedNum cs with
      | some n => n
      | none => .nan

/-- ECMAScript ToNumber on the modelled values. -/
def toNumber : JsVal → JsNum
  | .undef => .nan
  | .null => .fin 0
  | .bool b => .fin (if b then 1 else 0)
  | .num n => n
  | .str s => strToNumber s

/-- `isNaN(Number(v))` as used by the budget validation. -/
def jsIsNaNNum : JsNum → Bool
  | .nan => true
  | _ => false

/-- Number-to-string conversion.  Integers print exactly; non-integral
doubles print as decimal expansions in JavaScript, which an exact
rational cannot reproduce, so they are rendered as `num/den` here.  The
handlers only stringify values that are strings on every path the
specification describes. -/
def numToString : JsNum → String
  | .nan => "NaN"
  | .inf => "Infinity"
  | .ninf => "-Infinity"
  | .fin q => if q.den = 1 then toString q.num else toString q.num ++ "/" ++ toString q.den

/-- ECMAScript ToString (the `String(x)` coercion). -/
def jsToString : JsVal → String
  | .undef => "undefined"
  | .null => "null"
  | .bool b => if b then "true" else "false"
  | .num n => numToString n
  | .str s => s

/-- Truncation toward zero, as `timeClip` applies to a numeric time. -/
def jsTruncQ (q : ℚ) : Int :=
  if 0 ≤ q then q.floor else -(-q).floor

/-- ECMAScript timeClip: times beyond ±8.64e15 ms become NaN, finite
times are truncated toward zero. -/
def jsTimeClip : JsNum → JsNum
  | .fin q => if |q| ≤ (8640000000000000 : ℚ) then .fin (jsTruncQ q) else .nan
  | _ => .nan

def isLeapYear (y : Int) : Bool :=
  (y % 4 = 0 && y % 100 ≠ 0) || y % 400 = 0

def daysInMonth (y : Int) (m : Nat) : Nat :=
  if m = 1 || m = 3 || m = 5 || m = 7 || m = 8 || m = 10 || m = 12 then 31
  else if m = 2 then (if isLeapYear y then 29 else 28)
  else 30

/-- Days from 1970-01-01 to the given proleptic-Gregorian civil date
(the standard era-based formula; exact for the 4-digit years the ISO
date parser below accepts). -/
def daysFromCivil (y : Int) (m d : Nat) : Int :=
  let y2 : Int := if m ≤ 2 then y - 1 else y
  let era : Int := (if 0 ≤ y2 then y2 else y2 - 399) / 400
  let yoe : Int := y2 - era * 400
  let mp : Int := ((m : Int) + 9) % 12
  let doy : Int := (153 * mp + 2) / 5 + (d : Int) - 1
  let doe : Int := yoe * 365 + yoe / 4 - yoe / 100 + doy
  era * 146097 + doe - 719468

/-- Date.parse restricted to the date-only ISO form `YYYY-MM-DD`
(interpreted as UTC midnight), which is the format this API documents
for `deadline`; every other string yields NaN.  Out-of-range month or
day components are rejected, as the ISO parser does. -/
def parseDateString (s : String) : JsNum :=
  match s.data with
  | [y1, y2, y3, y4, c1, m1, m2, c2, d1, d2] =>
    if c1 = '-' && c2 = '-' && [y1, y2, y3, y4, m1, m2, d1, d2].all Char.isDigit then
      let y : Nat := natOfDigits [y1, y2, y3, y4]
      let m : Nat := natOfDigits [m1, m2]
      let d : Nat := natOfDigits [d1, d2]
      if 1 ≤ m && m ≤ 12 && 1 ≤ d && d ≤ daysInMonth y m then
        .fin ((daysFromCivil y m d * 86400000 : Int) : ℚ)
      else .nan
    else .nan
  | _ => .nan

/-- `new Date(v).getTime()`: strings go through the date parser, other
primitives through ToNumber and timeClip. -/
def jsDateGetTime (v : JsVal) : JsNum :=
  match v with
  | .str s => parseDateString s
  | other => jsTimeClip (toNumber other)

/-- A MongoDB ObjectId, identified by its 24-char lowercase hex form. -/
structure OID where
  hex : String
deriving DecidableEq, Repr

/-- `new ObjectId(s)` succeeds exactly on 24-character hex strings
(normalising to lowercase) and throws otherwise. -/
def mkObjectId (s : String) : Option OID :=
  if s.length = 24 && s.data.all isHexDigitChar then some ⟨jsToLowerCase s⟩ else none

/-- A document of the `users` collection. -/
structure UserDoc where
  oid : OID
  email : JsVal
  name : JsVal
  photo : JsVal
  bio : JsVal
  authProvider : JsVal
  createdAt : Int
  updatedAt : Int
deriving DecidableEq, Repr

/-- The embedded `author` sub-record of a task. -/
structure Author where
  email : String
  name : JsVal
deriving DecidableEq, Repr

/-- A document of the `tasks` collection.  `author` is optional and
`bidsCount` may be present so that arbitrary store states (including
legacy documents) are representable. -/
structure Task where
  oid : OID
  title : String
  category : JsVal
  description : String
  deadline : JsNum
  budget : JsNum
  author : Option Author
  status : String
  createdAt : Int
  updatedAt : Int
  bidsCount : Option JsNum
deriving DecidableEq, Repr

/-- An HTTP response: a status code and a JSON body. -/
structure UserProj where
  name : JsVal
  email : JsVal
  photo : JsVal
  bio : JsVal
  authProvider : JsVal
  createdAt : Int
  updatedAt : Int
deriving DecidableEq, Repr

/-- A task as returned by the list endpoint: the identifier is coerced
to a plain string, every other field is carried over. -/
structure TaskOut where
  idStr : String
  title : String
  category : JsVal
  description : String
  deadline : JsNum
  budget : JsNum
  author : Option Author
  status : String
  createdAt : Int
  updatedAt : Int
  bidsCount : Option JsNum
deriving DecidableEq, Repr

/-- Response bodies produced by the handlers under study. -/
inductive RBody where
  | err : String → RBody
  | okCreated : Bool → JsVal → RBody
  | userOut : UserProj → RBody
  | taskOne : Task → RBody
  | taskList : List TaskOut → RBody
  | okId : String → RBody
deriving DecidableEq, Repr

/-- An HTTP response: status code plus JSON body. -/
structure Resp where
  status : Nat
  body : RBody
deriving DecidableEq, Repr

/-- Request body of POST /users; a field missing from the JSON body is
`undef`. -/
structure UserBody where
  name : JsVal
  email : JsVal
  photo : JsVal
  bio : JsVal
  authProvider : JsVal
deriving DecidableEq, Repr

/-- Request body of POST /tasks. -/
structure TaskBody where
  title : JsVal
  category : JsVal
  description : JsVal
  deadline : JsVal
  budget : JsVal
  userEmail : JsVal
  userName : JsVal
deriving DecidableEq, Repr

/-- Request body of PATCH /tasks/:id. -/
structure PatchBody where
  title : JsVal
  category : JsVal
  description : JsVal
  deadline : JsVal
  budget : JsVal
deriving DecidableEq, Repr

/-- Destructuring default: `const ⦃name = d⦄ = body` uses the default
exactly when the field is `undefined`. -/
def jsDefault (v d : JsVal) : JsVal :=
  if v = .undef then d else v

/-- The `a || b` idiom: `b` when `a` is falsy. -/
def jsOr (a b : JsVal) : JsVal :=
  if jsTruthy a then a else b

/-- `String(opt || "")` applied to an optional query parameter. -/
def optQueryStr : Option String → String
  | some s => s
  | none => ""

/-- `findOne ⦃email: v⦄` on the users collection: first document whose
`email` equals the filter value. -/
def userFindByEmail (s : List UserDoc) (v : JsVal) : Option UserDoc :=
  s.find? (fun u => u.email = v)

/-- `updateOne ⦃email: v⦄ ⦃$set: ...⦄`: rewrite the first matching
document with `f`, leave everything else in place. -/
def updateFirstUser (s : List UserDoc) (v : JsVal) (f : UserDoc → UserDoc) : List UserDoc :=
  match s with
  | [] => []
  | u :: rest => if u.email = v then f u :: rest else u :: updateFirstUser rest v f

/-- `findOne ⦃_id⦄` on the tasks collection. -/
def taskFindById (s : List Task) (oid : OID) : Option Task :=
  s.find? (fun t => t.oid = oid)

/-- `updateOne ⦃_id⦄ ⦃$set: ...⦄` on the tasks collection. -/
def updateFirstTask (s : List Task) (oid : OID) (f : Task → Task) : List Task :=
  match s with
  | [] => []
  | t :: rest => if t.oid = oid then f t :: rest else t :: updateFirstTask rest oid f

/-- `deleteOne ⦃_id⦄`: remove the first matching document. -/
def eraseFirstTask (s : List Task) (oid : OID) : List Task :=
  match s with
  | [] => []
  | t :: rest => if t.oid = oid then rest else t :: eraseFirstTask rest oid

/-- `task.author?.email || ""`, the value the ownership check compares
against the caller's email. -/
def taskAuthorEmail (t : Task) : String :=
  match t.author with
  | some a => if a.email = "" then "" else a.email
  | none => ""

/-- The `$set` document a successful POST /users applies (the
destructuring defaults already applied). -/
def applyUserSet (now : Int) (b : UserBody) (u : UserDoc) : UserDoc :=
  { u with
    name := jsDefault b.name (.str "")
    photo := jsDefault b.photo (.str "")
    bio := jsDefault b.bio (.str "")
    authProvider := jsDefault b.authProvider (.str "password")
    updatedAt := now }

/-- The document an upserting POST /users inserts when no email
matches: the filter key, the `$set` fields and the `$setOnInsert`
`createdAt`. -/
def newUserDoc (now : Int) (newId : OID) (b : UserBody) : UserDoc :=
  { oid := newId
    email := b.email
    name := jsDefault b.name (.str "")
    photo := jsDefault b.photo (.str "")
    bio := jsDefault b.bio (.str "")
    authProvider := jsDefault b.authProvider (.str "password")
    createdAt := now
    updatedAt := now }

/-- Handler of POST /users (src/index.js lines 30-68): validate the
email, then a single upsert keyed on it.  `now` is the current time and
`newId` the identifier the store would generate on insert. -/
def postUsers (now : Int) (newId : OID) (s : List UserDoc) (b : UserBody) :
    Resp × List UserDoc :=
  if !jsTruthy b.email then (⟨400, .err "Email is required"⟩, s)
  else
    match userFindByEmail s b.email with
    | some _ =>
      (⟨200, .okCreated false b.email⟩, updateFirstUser s b.email (applyUserSet now b))
    | none =>
      (⟨201, .okCreated true b.email⟩, s ++ [newUserDoc now newId b])

/-- The projection GET /users/:email returns on success: exactly the
seven public fields, excluding the store identifier. -/
def projectUser (u : UserDoc) : UserProj :=
  { name := u.name
    email := u.email
    photo := u.photo
    bio := u.bio
    authProvider := u.authProvider
    createdAt := u.createdAt
    updatedAt := u.updatedAt }

/-- Handler of GET /users/:email (src/index.js lines 71-101): exact
lookup first, lower-cased retry second, 404 if both miss. -/
def getUser (s : List UserDoc) (rawEmail : String) : Resp :=
  if rawEmail = "" then ⟨400, .err "Email required"⟩
  else
    match userFindByEmail s (.str rawEmail) with
    | some doc => ⟨200, .userOut (projectUser doc)⟩
    | none =>
      match userFindByEmail s (.str (jsToLowerCase rawEmail)) with
      | some doc => ⟨200, .userOut (projectUser doc)⟩
      | none => ⟨404, .err "User not found"⟩

/-- The shared field validation chain of POST /tasks and PATCH
/tasks/:id (title, category, description, deadline presence, budget),
returning the first failing check's message. -/
def firstTaskErr (title category description deadline budget : JsVal) : Option String :=
  if !jsTruthy title || jsTrim (jsToString title) = "" then some "Title is required"
  else if !jsTruthy category then some "Category is required"
  else if !jsTruthy description || jsTrim (jsToString description) = "" then
    some "Description is required"
  else if !jsTruthy deadline then some "Deadline is required"
  else if budget = .undef || budget = .null || jsIsNaNNum (toNumber budget) then
    some "Budget must be a number"
  else none

/-- The task document POST /tasks inserts once validation passed;
`dl` is the parsed deadline time value. -/
def newTaskDoc (now : Int) (newId : OID) (b : TaskBody) (dl : ℚ) : Task :=
  { oid := newId
    title := jsTrim (jsToString b.title)
    category := b.category
    description := jsTrim (jsToString b.description)
    deadline := .fin dl
    budget := toNumber b.budget
    author := some ⟨jsToLowerCase (jsToString b.userEmail), jsOr b.userName (.str "")⟩
    status := "open"
    createdAt := now
    updatedAt := now
    bidsCount := none }

/-- Handler of POST /tasks (src/index.js lines 104-161). -/
def postTasks (now : Int) (newId : OID) (s : List Task) (b : TaskBody) :
    Resp × List Task :=
  match firstTaskErr b.title b.category b.description b.deadline b.budget with
  | some msg => (⟨400, .err msg⟩, s)
  | none =>
    if !jsTruthy b.userEmail then (⟨400, .err "User email is required"⟩, s)
    else
      match jsDateGetTime b.deadline with
      | .fin dl => (⟨201, .okId newId.hex⟩, s ++ [newTaskDoc now newId b dl])
      | _ => (⟨400, .err "Deadline must be a valid date"⟩, s)

/-- The filter object GET /tasks builds from its query parameters. -/
structure TaskQuery where
  authorEmail : Option String
  category : Option String
deriving DecidableEq, Repr

/-- Query construction: each filter key is added only when the raw
query parameter is truthy (present and non-empty). -/
def buildQuery (qEmail qCat : Option String) : TaskQuery :=
  { authorEmail :=
      match qEmail with
      | some e => if e ≠ "" then some (jsToLowerCase e) else none
      | none => none
    category :=
      match qCat with
      | some c => if c ≠ "" then some c else none
      | none => none }

/-- MongoDB match semantics of the built filter: `author.email` equals
the given string (a document without an author cannot match) and
`category` equals the given string. -/
def matchesQuery (q : TaskQuery) (t : Task) : Bool :=
  (match q.authorEmail with
   | none => true
   | some e =>
     match t.author with
     | some a => a.email = e
     | none => false) &&
  (match q.category with
   | none => true
   | some c => t.category = .str c)

/-- `sort(⦃createdAt: -1⦄)`: newest first. -/
def taskNewerEq (a b : Task) : Prop := b.createdAt ≤ a.createdAt

instance : DecidableRel taskNewerEq := fun a b => inferInstanceAs (Decidable (_ ≤ _))

instance : IsTotal Task taskNewerEq := ⟨fun a b => (le_total b.createdAt a.createdAt)⟩

instance : IsTrans Task taskNewerEq := ⟨fun _ _ _ h1 h2 => le_trans h2 h1⟩

/-- The `⦃_id, deadline, ...rest⦄` mapping of the list endpoint: the
identifier is stringified, every other field passes through. -/
def taskToOut (t : Task) : TaskOut :=
  { idStr := t.oid.hex
    title := t.title
    category := t.category
    description := t.description
    deadline := t.deadline
    budget := t.budget
    author := t.author
    status := t.status
    createdAt := t.createdAt
    updatedAt := t.updatedAt
    bidsCount := t.bidsCount }

/-- Handler of GET /tasks (src/index.js lines 164-189): filter, sort by
`createdAt` descending, cap at 100, normalise identifiers. -/
def getTasks (s : List Task) (qEmail qCat : Option String) : Resp :=
  let q := buildQuery qEmail qCat
  let docs := ((s.filter (matchesQuery q)).insertionSort taskNewerEq).take 100
  ⟨200, .taskList (docs.map taskToOut)⟩

/-- Handler of GET /tasks/:id (src/index.js lines 191-206).  The inner
try/catch wraps both the ObjectId construction and the `findOne` call,
so a store failure during the lookup (modelled by `findErr`) is mapped
to the same 400 response as a malformed identifier. -/
def getTaskById (s : List Task) (idStr : String) (findErr : Bool) : Resp :=
  match mkObjectId idStr with
  | none => ⟨400, .err "Invalid task id"⟩
  | some oid =>
    if findErr then ⟨400, .err "Invalid task id"⟩
    else
      match taskFindById s oid with
      | none => ⟨404, .err "Task not found"⟩
      | some doc => ⟨200, .taskOne doc⟩

/-- Handler of DELETE /tasks/:id (src/index.js lines 208-242).  Only
the ObjectId construction sits in the inner try/catch; a rejection of
`findOne` or `deleteOne` (modelled by `findErr` / `delErr`) falls to
the outer catch and the generic 500 body. -/
def deleteTask (s : List Task) (idStr : String) (qEmail : Option String)
    (findErr delErr : Bool) : Resp × List Task :=
  let email := jsToLowerCase (optQueryStr qEmail)
  if email = "" then (⟨400, .err "Email is required"⟩, s)
  else
    match mkObjectId idStr with
    | none => (⟨400, .err "Invalid task id"⟩, s)
    | some oid =>
      if findErr then (⟨500, .err "Internal server error"⟩, s)
      else
        match taskFindById s oid with
        | none => (⟨404, .err "Task not found"⟩, s)
        | some task =>
          if taskAuthorEmail task ≠ email then
            (⟨403, .err "Not allowed to delete this task"⟩, s)
          else if delErr then (⟨500, .err "Internal server error"⟩, s)
          else
            let s2 := eraseFirstTask s oid
            if s2.length = s.length then (⟨500, .err "Failed to delete task"⟩, s2)
            else (⟨200, .okId idStr⟩, s2)

/-- The `$set` document of a successful PATCH /tasks/:id; `dl` is the
parsed deadline time value. -/
def applyPatchSet (now : Int) (b : PatchBody) (dl : ℚ) (t : Task) : Task :=
  { t with
    title := jsTrim (jsToString b.title)
    category := b.category
    description := jsTrim (jsToString b.description)
    deadline := .fin dl
    budget := toNumber b.budget
    updatedAt := now }

/-- Handler of PATCH /tasks/:id (src/index.js lines 244-309).  As in
the delete handler, only the ObjectId construction is guarded by the
inner try/catch; store failures (`findErr` / `updErr`) collapse to the
generic 500 body. -/
def patchTask (now : Int) (s : List Task) (idStr : String) (qEmail : Option String)
    (b : PatchBody) (findErr updErr : Bool) : Resp × List Task :=
  let email := jsToLowerCase (optQueryStr qEmail)
  if email = "" then (⟨400, .err "Email is required"⟩, s)
  else
    match mkObjectId idStr with
    | none => (⟨400, .err "Invalid task id"⟩, s)
    | some oid =>
      if findErr then (⟨500, .err "Internal server error"⟩, s)
      else
        match taskFindById s oid with
        | none => (⟨404, .err "Task not found"⟩, s)
        | some existing =>
          if taskAuthorEmail existing ≠ email then
            (⟨403, .err "Not allowed to update this task"⟩, s)
          else
            match firstTaskErr b.title b.category b.description b.deadline b.budget with
            | some msg => (⟨400, .err msg⟩, s)
            | none =>
              match jsDateGetTime b.deadline with
              | .fin dl =>
                if updErr then (⟨500, .err "Internal server error"⟩, s)
                else
                  let s2 := updateFirstTask s oid (applyPatchSet now b dl)
                  if (taskFindById s oid).isNone then (⟨404, .err "Task not found"⟩, s2)
                  else (⟨200, .okId oid.hex⟩, s2)
              | _ => (⟨400, .err "Deadline must be a valid date"⟩, s)

/-- The `created` flag carried by an `okCreated` body. -/
def respCreated : RBody → Bool
  | .okCreated c _ => c
  | _ => false

/-- Run a sequence of POST /users requests (each with its own current
time and candidate insert identifier), collecting the status codes and
`created` flags and the final store state. -/
def runPosts : List (Int × OID × UserBody) → List UserDoc → List (Nat × Bool) × List UserDoc
  | [], s => ([], s)
  | (now, nid, b) :: rest, s =>
    let r := postUsers now nid s b
    let tail := runPosts rest r.2
    ((r.1.status, respCreated r.1.body) :: tail.1, tail.2)

/-! ### Concrete sample data, used by the closed witness theorems -/

def wOid : OID := ⟨"aaaaaaaaaaaaaaaaaaaaaaaa"⟩

def wOid2 : OID := ⟨"bbbbbbbbbbbbbbbbbbbbbbbb"⟩

def wTask : Task :=
  { oid := wOid
    title := "T"
    category := .str "web"
    description := "D"
    deadline := .fin 0
    budget := .fin 100
    author := some ⟨"owner@x.com", .str "O"⟩
    status := "open"
    createdAt := 5
    updatedAt := 5
    bidsCount := none }

def wOrphanTask : Task :=
  { wTask with oid := wOid2, author := none }

def wPatch : PatchBody :=
  { title := .str "New title"
    category := .str "design"
    description := .str "nd"
    deadline := .str "2025-01-01"
    budget := .str "150.5" }

def wTaskBody : TaskBody :=
  { title := .str "Fix"
    category := .str "web"
    description := .str "d"
    deadline := .str "2025-01-01"
    budget := .str "150.5"
    userEmail := .str "O@x.com"
    userName := .undef }

/-! ### Lemmas about the JavaScript primitives -/

theorem jsToLowerCase_eq_empty_iff (s : String) : jsToLowerCase s = "" ↔ s = "" := by
  cases s with
  | mk l =>
    constructor
    · intro h
      have hd : l.map Char.toLower = [] := congrArg String.data h
      have hl : l = [] := List.map_eq_nil_iff.mp hd
      rw [hl]
    · intro h
      have hl : l = [] := congrArg String.data h
      rw [hl]
      rfl

theorem jsToLowerCase_ne_empty {s : String} (h : s ≠ "") : jsToLowerCase s ≠ "" :=
  fun hc => h ((jsToLowerCase_eq_empty_iff s).mp hc)

theorem jsTruthy_str_iff (e : String) : jsTruthy (.str e) = true ↔ e ≠ "" := by
  simp [jsTruthy]

/-! ### Lemmas about the store operations -/

theorem userFind_split (s : List UserDoc) (v : JsVal) (u : UserDoc)
    (h : userFindByEmail s v = some u) :
    ∃ l1 l2, s = l1 ++ u :: l2 ∧ (∀ x ∈ l1, x.email ≠ v) ∧ u.email = v := by
  induction s with
  | nil => simp [userFindByEmail] at h
  | cons w rest ih =>
    by_cases hw : w.email = v
    · rw [userFindByEmail, List.find?_cons_of_pos _ (by simp [hw])] at h
      obtain rfl : w = u := by injection h
      exact ⟨[], rest, rfl, by simp, hw⟩
    · rw [userFindByEmail, List.find?_cons_of_neg _ (by simp [hw])] at h
      obtain ⟨l1, l2, heq, hall, hu⟩ := ih h
      refine ⟨w :: l1, l2, by rw [heq]; rfl, ?_, hu⟩
      intro x hx
      rcases List.mem_cons.mp hx with rfl | hx
      · exact hw
      · exact hall x hx

theorem updateFirstUser_append (l1 l2 : List UserDoc) (u : UserDoc) (v : JsVal)
    (f : UserDoc → UserDoc) (hall : ∀ x ∈ l1, x.email ≠ v) (hu : u.email = v) :
    updateFirstUser (l1 ++ u :: l2) v f = l1 ++ f u :: l2 := by
  induction l1 with
  | nil => simp [updateFirstUser, hu]
  | cons w rest ih =>
    have hw : w.email ≠ v := hall w (by simp)
    simp only [List.cons_append, updateFirstUser, if_neg hw, List.append_eq]
    rw [ih (fun x hx => hall x (by simp [hx]))]

theorem userFind_append_first (l1 l2 : List UserDoc) (u : UserDoc) (v : JsVal)
    (hall : ∀ x ∈ l1, x.email ≠ v) (hu : u.email = v) :
    userFindByEmail (l1 ++ u :: l2) v = some u := by
  induction l1 with
  | nil => exact List.find?_cons_of_pos _ (by simp [hu])
  | cons w rest ih =>
    have hw : w.email ≠ v := hall w (by simp)
    rw [List.cons_append, userFindByEmail, List.find?_cons_of_neg _ (by simp [hw])]
    exact ih (fun x hx => hall x (by simp [hx]))

theorem userFind_updateFirst (s : List UserDoc) (v : JsVal) (f : UserDoc → UserDoc)
    (u : UserDoc) (hf : userFindByEmail s v = some u) (hpres : (f u).email = u.email) :
    userFindByEmail (updateFirstUser s v f) v = some (f u) := by
  obtain ⟨l1, l2, heq, hall, hu⟩ := userFind_split s v u hf
  rw [heq, updateFirstUser_append l1 l2 u v f hall hu]
  exact userFind_append_first l1 l2 (f u) v hall (by rw [hpres, hu])

theorem userFind_append_of_none (s : List UserDoc) (v : JsVal) (d : UserDoc)
    (hnone : userFindByEmail s v = none) (hd : d.email = v) :
    userFindByEmail (s ++ [d]) v = some d := by
  rw [userFindByEmail, List.find?_append]
  rw [userFindByEmail] at hnone
  rw [hnone, Option.none_or]
  exact List.find?_cons_of_pos _ (by simp [hd])

/-- Invariant step for repeated POST /users calls: once a user with the
given email exists, every further call with that email answers 200 /
`created:false`, preserves `createdAt`, and leaves the profile fields
equal to the latest call's (defaulted) values. -/
theorem runPosts_existing (e : String) (he : e ≠ "") :
    ∀ (calls : List (Int × OID × UserBody)) (s : List UserDoc) (u0 : UserDoc),
      (∀ c ∈ calls, (c.2.2).email = JsVal.str e) →
      userFindByEmail s (.str e) = some u0 →
      (runPosts calls s).1 = calls.map (fun _ => (200, false))
      ∧ ∃ u1, userFindByEmail (runPosts calls s).2 (.str e) = some u1
          ∧ u1.createdAt = u0.createdAt
          ∧ (calls = [] → u1 = u0)
          ∧ (∀ c, calls.getLast? = some c →
              u1.name = jsDefault c.2.2.name (.str "")
              ∧ u1.photo = jsDefault c.2.2.photo (.str "")
              ∧ u1.bio = jsDefault c.2.2.bio (.str "")
              ∧ u1.authProvider = jsDefault c.2.2.authProvider (.str "password")
              ∧ u1.updatedAt = c.1) := by
  intro calls
  induction calls with
  | nil =>
    intro s u0 _ hfind
    refine ⟨rfl, u0, hfind, rfl, fun _ => rfl, fun c hc => by simp at hc⟩
  | cons c0 rest ih =>
    intro s u0 hall hfind
    obtain ⟨now, nid, b⟩ := c0
    have hb : b.email = JsVal.str e := hall (now, nid, b) (by simp)
    have htr : jsTruthy b.email = true := by rw [hb]; simp [jsTruthy, he]
    have hfindb : userFindByEmail s b.email = some u0 := by rw [hb]; exact hfind
    have hpost : postUsers now nid s b
        = (⟨200, .okCreated false b.email⟩, updateFirstUser s b.email (applyUserSet now b)) := by
      simp [postUsers, htr, hfindb]
    have hfind1 : userFindByEmail (updateFirstUser s b.email (applyUserSet now b)) (.str e)
        = some (applyUserSet now b u0) := by
      rw [← hb]
      exact userFind_updateFirst s b.email _ u0 hfindb rfl
    have hrest := ih (updateFirstUser s b.email (applyUserSet now b))
      (applyUserSet now b u0) (fun c hc => hall c (by simp [hc])) hfind1
    constructor
    · show ((postUsers now nid s b).1.status,
          respCreated (postUsers now nid s b).1.body)
          :: (runPosts rest (postUsers now nid s b).2).1 = _
      rw [hpost]
      simpa [respCreated] using hrest.1
    · obtain ⟨u1, hu1, hcreated, hnilcase, hlast⟩ := hrest.2
      refine ⟨u1, ?_, ?_, by simp, ?_⟩
      · show userFindByEmail (runPosts rest (postUsers now nid s b).2).2 _ = _
        rw [hpost]
        exact hu1
      · rw [hcreated]; rfl
      · intro c hc
        match rest, hc with
        | [], hc =>
          have : c = (now, nid, b) := by
            simpa using hc.symm
          subst this
          have hu1eq : u1 = applyUserSet now b u0 := hnilcase rfl
          subst hu1eq
          exact ⟨rfl, rfl, rfl, rfl, rfl⟩
        | r2 :: rest2, hc =>
          exact hlast c (by rw [← List.getLast?_cons_cons (a := (now, nid, b))]; exact hc)

theorem taskFind_split (s : List Task) (oid : OID) (t : Task)
    (h : taskFindById s oid = some t) :
    ∃ l1 l2, s = l1 ++ t :: l2 ∧ (∀ x ∈ l1, x.oid ≠ oid) ∧ t.oid = oid := by
  induction s with
  | nil => simp [taskFindById] at h
  | cons w rest ih =>
    by_cases hw : w.oid = oid
    · rw [taskFindById, List.find?_cons_of_pos _ (by simp [hw])] at h
      obtain rfl : w = t := by injection h
      exact ⟨[], rest, rfl, by simp, hw⟩
    · rw [taskFindById, List.find?_cons_of_neg _ (by simp [hw])] at h
      obtain ⟨l1, l2, heq, hall, ht⟩ := ih h
      refine ⟨w :: l1, l2, by rw [heq]; rfl, ?_, ht⟩
      intro x hx
      rcases List.mem_cons.mp hx with rfl | hx
      · exact hw
      · exact hall x hx

theorem eraseFirstTask_append (l1 l2 : List Task) (t : Task) (oid : OID)
    (hall : ∀ x ∈ l1, x.oid ≠ oid) (ht : t.oid = oid) :
    eraseFirstTask (l1 ++ t :: l2) oid = l1 ++ l2 := by
  induction l1 with
  | nil => simp [eraseFirstTask, ht]
  | cons w rest ih =>
    have hw : w.oid ≠ oid := hall w (by simp)
    simp only [List.cons_append, eraseFirstTask, if_neg hw, List.append_eq]
    rw [ih (fun x hx => hall x (by simp [hx]))]

theorem updateFirstTask_append (l1 l2 : List Task) (t : Task) (oid : OID)
    (f : Task → Task) (hall : ∀ x ∈ l1, x.oid ≠ oid) (ht : t.oid = oid) :
    updateFirstTask (l1 ++ t :: l2) oid f = l1 ++ f t :: l2 := by
  induction l1 with
  | nil => simp [updateFirstTask, ht]
  | cons w rest ih =>
    have hw : w.oid ≠ oid := hall w (by simp)
    simp only [List.cons_append, updateFirstTask, if_neg hw, List.append_eq]
    rw [ih (fun x hx => hall x (by simp [hx]))]

/-! ### The claims -/

/-- C1: for a stored task (well-formed per the data model: its author
email is stored lower-cased and non-empty), a PATCH or DELETE whose
lower-cased caller email differs from the stored author email answers
403 and leaves the store unchanged, while the same request carrying the
author's own email answers 200, removing the document (DELETE) or
replacing its updatable fields (PATCH). -/
theorem claim_C1_owner_authorization
    (now : Int) (s : List Task) (idStr : String) (oid : OID) (t : Task) (a : Author)
    (b : PatchBody) (dl : ℚ)
    (hid : mkObjectId idStr = some oid)
    (hfind : taskFindById s oid = some t)
    (hau : t.author = some a)
    (hlow : jsToLowerCase a.email = a.email)
    (hane : a.email ≠ "")
    (hval : firstTaskErr b.title b.category b.description b.deadline b.budget = none)
    (hdl : jsDateGetTime b.deadline = .fin dl) :
    (∀ qe : String, qe ≠ "" → jsToLowerCase qe ≠ a.email →
      deleteTask s idStr (some qe) false false
        = (⟨403, .err "Not allowed to delete this task"⟩, s)
      ∧ patchTask now s idStr (some qe) b false false
        = (⟨403, .err "Not allowed to update this task"⟩, s))
    ∧ deleteTask s idStr (some a.email) false false
        = (⟨200, .okId idStr⟩, eraseFirstTask s oid)
    ∧ patchTask now s idStr (some a.email) b false false
        = (⟨200, .okId oid.hex⟩, updateFirstTask s oid (applyPatchSet now b dl))
    ∧ (∃ l1 l2, s = l1 ++ t :: l2 ∧ (∀ x ∈ l1, x.oid ≠ oid)
        ∧ eraseFirstTask s oid = l1 ++ l2
        ∧ updateFirstTask s oid (applyPatchSet now b dl)
            = l1 ++ applyPatchSet now b dl t :: l2) := by
  have haeq : taskAuthorEmail t = a.email := by simp [taskAuthorEmail, hau, hane]
  obtain ⟨l1, l2, hse, hpre, hoid⟩ := taskFind_split s oid t hfind
  have herase : eraseFirstTask s oid = l1 ++ l2 := by
    rw [hse]; exact eraseFirstTask_append l1 l2 t oid hpre hoid
  have hupd : updateFirstTask s oid (applyPatchSet now b dl)
      = l1 ++ applyPatchSet now b dl t :: l2 := by
    rw [hse]; exact updateFirstTask_append l1 l2 t oid _ hpre hoid
  have hlen : ¬((eraseFirstTask s oid).length = s.length) := by
    rw [herase, hse]; simp
  have hane2 : jsToLowerCase a.email ≠ "" := by rw [hlow]; exact hane
  refine ⟨?_, ?_, ?_, l1, l2, hse, hpre, herase, hupd⟩
  · intro qe hqe hne
    have hq1 : jsToLowerCase qe ≠ "" := jsToLowerCase_ne_empty hqe
    have hne2 : taskAuthorEmail t ≠ jsToLowerCase qe := by
      rw [haeq]; exact fun hc => hne hc.symm
    constructor
    · simp [deleteTask, optQueryStr, hq1, hid, hfind, hne2]
    · simp [patchTask, optQueryStr, hq1, hid, hfind, hne2]
  · have hok : ¬(taskAuthorEmail t ≠ jsToLowerCase a.email) := by
      rw [haeq, hlow]
      exact fun hc => hc rfl
    simp [deleteTask, optQueryStr, hane2, hid, hfind, hok, hlen]
  · have hok : ¬(taskAuthorEmail t ≠ jsToLowerCase a.email) := by
      rw [haeq, hlow]
      exact fun hc => hc rfl
    have hsome : ¬((taskFindById s oid).isNone = true) := by rw [hfind]; simp
    simp [patchTask, optQueryStr, hane2, hid, hfind, hok, hval, hdl, hsome]

theorem claim_C1_witness :
    (deleteTask [wTask] "aaaaaaaaaaaaaaaaaaaaaaaa" (some "other@x.com") false false
       = (⟨403, .err "Not allowed to delete this task"⟩, [wTask])
     ∧ patchTask 9 [wTask] "aaaaaaaaaaaaaaaaaaaaaaaa" (some "other@x.com") wPatch false false
       = (⟨403, .err "Not allowed to update this task"⟩, [wTask]))
    ∧ deleteTask [wTask] "aaaaaaaaaaaaaaaaaaaaaaaa" (some "owner@x.com") false false
       = (⟨200, .okId "aaaaaaaaaaaaaaaaaaaaaaaa"⟩, eraseFirstTask [wTask] wOid)
    ∧ patchTask 9 [wTask] "aaaaaaaaaaaaaaaaaaaaaaaa" (some "owner@x.com") wPatch false false
       = (⟨200, .okId wOid.hex⟩,
          updateFirstTask [wTask] wOid (applyPatchSet 9 wPatch 1735689600000)) := by
  have h := claim_C1_owner_authorization 9 [wTask] "aaaaaaaaaaaaaaaaaaaaaaaa" wOid wTask
    ⟨"owner@x.com", .str "O"⟩ wPatch 1735689600000 (by decide) (by decide) rfl
    (by decide) (by decide) (by decide) (by decide)
  exact ⟨h.1 "other@x.com" (by decide) (by decide), h.2.1, h.2.2.1⟩

/-- C7: a successful PATCH /tasks/:id replaces exactly title (trimmed),
category, description (trimmed), deadline (parsed to a date), budget
(coerced to a number) and updatedAt of the matched document, leaving
status, author, createdAt, bidsCount (and the identifier) untouched,
and leaves every other document in place. -/
theorem claim_C7_patch_frame
    (now : Int) (s : List Task) (idStr : String) (oid : OID) (t : Task) (qe : String)
    (b : PatchBody) (dl : ℚ)
    (hid : mkObjectId idStr = some oid)
    (hfind : taskFindById s oid = some t)
    (hqe : qe ≠ "")
    (hmail : taskAuthorEmail t = jsToLowerCase qe)
    (hval : firstTaskErr b.title b.category b.description b.deadline b.budget = none)
    (hdl : jsDateGetTime b.deadline = .fin dl) :
    ∃ l1 l2, s = l1 ++ t :: l2 ∧ (∀ x ∈ l1, x.oid ≠ oid)
      ∧ patchTask now s idStr (some qe) b false false
          = (⟨200, .okId oid.hex⟩, l1 ++ applyPatchSet now b dl t :: l2)
      ∧ (applyPatchSet now b dl t).title = jsTrim (jsToString b.title)
      ∧ (applyPatchSet now b dl t).category = b.category
      ∧ (applyPatchSet now b dl t).description = jsTrim (jsToString b.description)
      ∧ (applyPatchSet now b dl t).deadline = .fin dl
      ∧ (applyPatchSet now b dl t).budget = toNumber b.budget
      ∧ (applyPatchSet now b dl t).updatedAt = now
      ∧ (applyPatchSet now b dl t).status = t.status
      ∧ (applyPatchSet now b dl t).author = t.author
      ∧ (applyPatchSet now b dl t).createdAt = t.createdAt
      ∧ (applyPatchSet now b dl t).bidsCount = t.bidsCount
      ∧ (applyPatchSet now b dl t).oid = t.oid := by
  obtain ⟨l1, l2, hse, hpre, hoid⟩ := taskFind_split s oid t hfind
  have hupd : updateFirstTask s oid (applyPatchSet now b dl)
      = l1 ++ applyPatchSet now b dl t :: l2 := by
    rw [hse]; exact updateFirstTask_append l1 l2 t oid _ hpre hoid
  have hq1 : jsToLowerCase qe ≠ "" := jsToLowerCase_ne_empty hqe
  have hok : ¬(taskAuthorEmail t ≠ jsToLowerCase qe) := fun hc => hc hmail
  have hsome : ¬((taskFindById s oid).isNone = true) := by rw [hfind]; simp
  refine ⟨l1, l2, hse, hpre, ?_, rfl, rfl, rfl, rfl, rfl, rfl, rfl, rfl, rfl, rfl, rfl⟩
  rw [← hupd]
  simp [patchTask, optQueryStr, hq1, hid, hfind, hok, hval, hdl, hsome]

theorem claim_C7_witness :
    patchTask 9 [wTask] "aaaaaaaaaaaaaaaaaaaaaaaa" (some "Owner@X.com") wPatch false false
      = (⟨200, .okId wOid.hex⟩, [applyPatchSet 9 wPatch 1735689600000 wTask])
    ∧ (applyPatchSet 9 wPatch 1735689600000 wTask).status = wTask.status
    ∧ (applyPatchSet 9 wPatch 1735689600000 wTask).author = wTask.author
    ∧ (applyPatchSet 9 wPatch 1735689600000 wTask).createdAt = wTask.createdAt
    ∧ (applyPatchSet 9 wPatch 1735689600000 wTask).bidsCount = wTask.bidsCount := by
  obtain ⟨l1, l2, hse, -, hpatch, -, -, -, -, -, -, hst, hau2, hcr, hbc, -⟩ :=
    claim_C7_patch_frame 9 [wTask] "aaaaaaaaaaaaaaaaaaaaaaaa" wOid wTask "Owner@X.com"
      wPatch 1735689600000 (by decide) (by decide) (by decide) (by decide)
      (by decide) (by decide)
  rcases l1 with - | ⟨x, xs⟩
  · simp only [List.nil_append, List.cons.injEq] at hse
    obtain ⟨-, hl2⟩ := hse
    rw [← hl2] at hpatch
    exact ⟨hpatch, hst, hau2, hcr, hbc⟩
  · have hlen := congrArg List.length hse
    simp [List.length_append] at hlen

/-- C10: a stored task whose author sub-record is missing, or whose
stored author email is the empty string, can never be updated or
deleted: for every (necessarily non-empty) caller email, PATCH and
DELETE answer 403 and leave the store unchanged. -/
theorem claim_C10_orphan_task_locked
    (now : Int) (s : List Task) (idStr : String) (oid : OID) (t : Task) (qe : String)
    (b : PatchBody)
    (hid : mkObjectId idStr = some oid)
    (hfind : taskFindById s oid = some t)
    (horphan : t.author = none ∨ taskAuthorEmail t = "")
    (hqe : qe ≠ "") :
    deleteTask s idStr (some qe) false false
      = (⟨403, .err "Not allowed to delete this task"⟩, s)
    ∧ patchTask now s idStr (some qe) b false false
      = (⟨403, .err "Not allowed to update this task"⟩, s) := by
  have hae : taskAuthorEmail t = "" := by
    rcases horphan with h | h
    · simp [taskAuthorEmail, h]
    · exact h
  have hq1 : jsToLowerCase qe ≠ "" := jsToLowerCase_ne_empty hqe
  have hne2 : taskAuthorEmail t ≠ jsToLowerCase qe := by
    rw [hae]; exact fun hc => hq1 hc.symm
  constructor
  · simp [deleteTask, optQueryStr, hq1, hid, hfind, hne2]
  · simp [patchTask, optQueryStr, hq1, hid, hfind, hne2]

theorem matchesQuery_true_spec (q : TaskQuery) (t : Task)
    (h : matchesQuery q t = true) :
    (∀ e, q.authorEmail = some e → ∃ a, t.author = some a ∧ a.email = e)
    ∧ (∀ c, q.category = some c → t.category = .str c) := by
  rw [matchesQuery, Bool.and_eq_true] at h
  constructor
  · intro e he
    rw [he] at h
    cases ha : t.author with
    | none => rw [ha] at h; exact absurd h.1 (by simp)
    | some a =>
      rw [ha] at h
      refine ⟨a, rfl, ?_⟩
      have h1 := h.1
      simpa using h1
  · intro c hc
    rw [hc] at h
    have h2 := h.2
    simpa using h2

/-- C6: GET /tasks combines the optional email filter (lower-cased
before matching `author.email`) and the optional category filter with
logical AND, absent filters imposing no constraint; the result has at
most 100 items, is ordered by createdAt descending, every returned item
is a stored task with its identifier coerced to a plain string and all
other fields unchanged, and (whenever the matching set fits under the
cap) every matching stored task appears. -/
theorem claim_C6_task_listing (s : List Task) (qEmail qCat : Option String) :
    ∃ l, getTasks s qEmail qCat = ⟨200, .taskList l⟩
      ∧ l.length ≤ 100
      ∧ List.Sorted (fun x y : TaskOut => y.createdAt ≤ x.createdAt) l
      ∧ (∀ o ∈ l, ∃ t, t ∈ s ∧ o = taskToOut t
           ∧ (∀ e, qEmail = some e → e ≠ "" →
               ∃ a, t.author = some a ∧ a.email = jsToLowerCase e)
           ∧ (∀ c, qCat = some c → c ≠ "" → t.category = .str c))
      ∧ ((s.filter (matchesQuery (buildQuery qEmail qCat))).length ≤ 100 →
          ∀ t, t ∈ s → matchesQuery (buildQuery qEmail qCat) t = true →
            taskToOut t ∈ l) := by
  refine ⟨(((s.filter (matchesQuery (buildQuery qEmail qCat))).insertionSort
      taskNewerEq).take 100).map taskToOut, rfl, ?_, ?_, ?_, ?_⟩
  · rw [List.length_map, List.length_take]
    exact min_le_left _ _
  · have hs1 : List.Sorted taskNewerEq
        ((s.filter (matchesQuery (buildQuery qEmail qCat))).insertionSort taskNewerEq) :=
      List.sorted_insertionSort _ _
    have hs2 := List.Pairwise.sublist (List.take_sublist 100 _) hs1
    exact List.Pairwise.map _ (fun a b h => h) hs2
  · intro o ho
    obtain ⟨t, ht, rfl⟩ := List.mem_map.mp ho
    have ht2 : t ∈ (s.filter (matchesQuery (buildQuery qEmail qCat))).insertionSort
        taskNewerEq := List.take_subset _ _ ht
    have ht3 : t ∈ s.filter (matchesQuery (buildQuery qEmail qCat)) :=
      (List.perm_insertionSort taskNewerEq _).mem_iff.mp ht2
    obtain ⟨hts, hmatch⟩ := List.mem_filter.mp ht3
    obtain ⟨hA, hC⟩ := matchesQuery_true_spec _ _ hmatch
    refine ⟨t, hts, rfl, ?_, ?_⟩
    · intro e he hne
      apply hA
      simp [buildQuery, he, hne]
    · intro c hc hnc
      apply hC
      simp [buildQuery, hc, hnc]
  · intro hlen t hts hmatch
    have h1 : t ∈ s.filter (matchesQuery (buildQuery qEmail qCat)) :=
      List.mem_filter.mpr ⟨hts, hmatch⟩
    have hlen2 : ((s.filter (matchesQuery (buildQuery qEmail qCat))).insertionSort
        taskNewerEq).length ≤ 100 := by
      rw [List.length_insertionSort]; exact hlen
    have h2 : t ∈ (s.filter (matchesQuery (buildQuery qEmail qCat))).insertionSort
        taskNewerEq := (List.perm_insertionSort taskNewerEq _).mem_iff.mpr h1
    rw [List.take_of_length_le hlen2]
    exact List.mem_map_of_mem _ h2

theorem claim_C6_witness :
    ∃ l, getTasks [wTask, wOrphanTask] (some "Owner@X.com") none = ⟨200, .taskList l⟩
      ∧ l.length ≤ 100
      ∧ List.Sorted (fun x y : TaskOut => y.createdAt ≤ x.createdAt) l
      ∧ (∀ o ∈ l, ∃ t, t ∈ [wTask, wOrphanTask] ∧ o = taskToOut t
           ∧ (∀ e, (some "Owner@X.com" : Option String) = some e → e ≠ "" →
               ∃ a, t.author = some a ∧ a.email = jsToLowerCase e)
           ∧ (∀ c, (none : Option String) = some c → c ≠ "" → t.category = .str c))
      ∧ (([wTask, wOrphanTask].filter
            (matchesQuery (buildQuery (some "Owner@X.com") none))).length ≤ 100 →
          ∀ t, t ∈ [wTask, wOrphanTask] →
            matchesQuery (buildQuery (some "Owner@X.com") none) t = true →
            taskToOut t ∈ l) :=
  claim_C6_task_listing [wTask, wOrphanTask] (some "Owner@X.com") none

/-- C2 counterexample: with every other field valid, a budget of
`"Infinity"` coerces to a non-finite number, yet POST /tasks accepts
the request with 201 and stores the infinite budget — the handler
checks `isNaN(Number(budget))`, not finiteness, so "400 iff the budget
is not coercible to a finite number" is false at this input. -/
theorem claim_C2_counterexample :
    toNumber (.str "Infinity") = .inf
    ∧ (postTasks 0 wOid []
        { wTaskBody with budget := .str "Infinity" }).1.status = 201
    ∧ ((postTasks 0 wOid []
        { wTaskBody with budget := .str "Infinity" }).2.map Task.budget) = [.inf] := by
  refine ⟨rfl, ?_, ?_⟩ <;> decide

/-- C2 (amended): with the other field validations passing, POST /tasks
fails with 400 exactly when the budget is absent (undefined or null) or
`Number(budget)` is NaN — numeric strings are accepted, and so are
strings such as "Infinity" that coerce to a non-finite number; an
accepted request stores the budget as the coerced number. -/
theorem claim_C2_amended_budget_validation
    (now : Int) (newId : OID) (s : List Task) (b : TaskBody) (dl : ℚ)
    (htitle : jsTruthy b.title = true) (htitleT : jsTrim (jsToString b.title) ≠ "")
    (hcat : jsTruthy b.category = true)
    (hdesc : jsTruthy b.description = true) (hdescT : jsTrim (jsToString b.description) ≠ "")
    (hdead : jsTruthy b.deadline = true)
    (hmail : jsTruthy b.userEmail = true)
    (hdl : jsDateGetTime b.deadline = .fin dl) :
    ((postTasks now newId s b).1.status = 400
       ↔ (b.budget = .undef ∨ b.budget = .null ∨ toNumber b.budget = .nan))
    ∧ ((b.budget ≠ .undef ∧ b.budget ≠ .null ∧ toNumber b.budget ≠ .nan) →
        postTasks now newId s b = (⟨201, .okId newId.hex⟩, s ++ [newTaskDoc now newId b dl])
        ∧ (newTaskDoc now newId b dl).budget = toNumber b.budget) := by
  by_cases hbad : b.budget = .undef ∨ b.budget = .null ∨ toNumber b.budget = .nan
  · have herr : firstTaskErr b.title b.category b.description b.deadline b.budget
        = some "Budget must be a number" := by
      rcases hbad with h | h | h <;>
        simp [firstTaskErr, htitle, htitleT, hcat, hdesc, hdescT, hdead, h, jsIsNaNNum]
    have hpost : postTasks now newId s b = (⟨400, .err "Budget must be a number"⟩, s) := by
      simp [postTasks, herr]
    refine ⟨?_, fun hgood => ?_⟩
    · rw [hpost]
      simpa using hbad
    · rcases hbad with h | h | h
      · exact absurd h hgood.1
      · exact absurd h hgood.2.1
      · exact absurd h hgood.2.2
  · have h1 : b.budget ≠ .undef := fun h => hbad (Or.inl h)
    have h2 : b.budget ≠ .null := fun h => hbad (Or.inr (Or.inl h))
    have h3 : toNumber b.budget ≠ .nan := fun h => hbad (Or.inr (Or.inr h))
    have h3b : jsIsNaNNum (toNumber b.budget) = false := by
      cases hn : toNumber b.budget with
      | nan => exact absurd hn h3
      | inf => rfl
      | ninf => rfl
      | fin q => rfl
    have herr : firstTaskErr b.title b.category b.description b.deadline b.budget = none := by
      simp [firstTaskErr, htitle, htitleT, hcat, hdesc, hdescT, hdead, h1, h2, h3b]
    have hpost : postTasks now newId s b
        = (⟨201, .okId newId.hex⟩, s ++ [newTaskDoc now newId b dl]) := by
      simp [postTasks, herr, hmail, hdl]
    refine ⟨?_, fun _ => ⟨hpost, rfl⟩⟩
    rw [hpost]
    constructor
    · intro h
      exact absurd h (by simp)
    · intro h
      exact absurd h hbad

theorem claim_C2_witness :
    jsTruthy wTaskBody.title = true
    ∧ postTasks 3 wOid2 [] wTaskBody
        = (⟨201, .okId wOid2.hex⟩, [] ++ [newTaskDoc 3 wOid2 wTaskBody 1735689600000])
    ∧ (newTaskDoc 3 wOid2 wTaskBody 1735689600000).budget = toNumber wTaskBody.budget := by
  have h := claim_C2_amended_budget_validation 3 wOid2 [] wTaskBody 1735689600000
    (by decide) (by decide) (by decide) (by decide) (by decide) (by decide) (by decide)
    (by decide)
  have h2 := h.2 ⟨by decide, by decide, by decide⟩
  exact ⟨by decide, h2.1, h2.2⟩

/-- C8 counterexample: the identifier is syntactically valid, yet a
store failure during the `findOne` of GET /tasks/:id (the lookup
rejects, modelled by the error flag) is caught by the handler's inner
try/catch and answered with 400 "Invalid task id" — not the generic 500
body the claim requires for unexpected store failures. -/
theorem claim_C8_counterexample :
    (mkObjectId "aaaaaaaaaaaaaaaaaaaaaaaa").isSome = true
    ∧ getTaskById [] "aaaaaaaaaaaaaaaaaaaaaaaa" true = ⟨400, .err "Invalid task id"⟩ := by
  exact ⟨rfl, rfl⟩

/-- C8 (amended): a syntactically invalid identifier yields 400 on GET,
PATCH and DELETE /tasks/:id; unexpected store failures in DELETE and
PATCH collapse to the generic 500 body; but in GET /tasks/:id a failure
of the lookup itself is caught by the same guard as identifier parsing
and yields 400 "Invalid task id" instead of the generic 500. -/
theorem claim_C8_amended_error_mapping (s : List Task) (idStr : String) :
    (mkObjectId idStr = none →
      (∀ fe, getTaskById s idStr fe = ⟨400, .err "Invalid task id"⟩)
      ∧ (∀ qe fe de, (deleteTask s idStr qe fe de).1.status = 400)
      ∧ (∀ now qe b fe ue, (patchTask now s idStr qe b fe ue).1.status = 400))
    ∧ (∀ oid, mkObjectId idStr = some oid →
        getTaskById s idStr true = ⟨400, .err "Invalid task id"⟩)
    ∧ (∀ qe, jsToLowerCase (optQueryStr qe) ≠ "" →
        ∀ oid, mkObjectId idStr = some oid →
          (∀ de, deleteTask s idStr qe true de = (⟨500, .err "Internal server error"⟩, s))
          ∧ (∀ now b ue, patchTask now s idStr qe b true ue
               = (⟨500, .err "Internal server error"⟩, s))
          ∧ (∀ t, taskFindById s oid = some t →
              taskAuthorEmail t = jsToLowerCase (optQueryStr qe) →
              deleteTask s idStr qe false true = (⟨500, .err "Internal server error"⟩, s)
              ∧ (∀ now b dl,
                  firstTaskErr b.title b.category b.description b.deadline b.budget = none →
                  jsDateGetTime b.deadline = JsNum.fin dl →
                  patchTask now s idStr qe b false true
                    = (⟨500, .err "Internal server error"⟩, s)))) := by
  refine ⟨fun hnone => ⟨fun fe => ?_, fun qe fe de => ?_, fun now qe b fe ue => ?_⟩,
    fun oid hoid => ?_, fun qe hq oid hoid => ?_⟩
  · simp [getTaskById, hnone]
  · by_cases hqe : jsToLowerCase (optQueryStr qe) = ""
    · simp [deleteTask, hqe]
    · simp [deleteTask, hqe, hnone]
  · by_cases hqe : jsToLowerCase (optQueryStr qe) = ""
    · simp [patchTask, hqe]
    · simp [patchTask, hqe, hnone]
  · simp [getTaskById, hoid]
  · refine ⟨fun de => ?_, fun now b ue => ?_, fun t hfind hmail => ?_⟩
    · simp [deleteTask, hq, hoid]
    · simp [patchTask, hq, hoid]
    · have hok : ¬(taskAuthorEmail t ≠ jsToLowerCase (optQueryStr qe)) := fun hc => hc hmail
      refine ⟨by simp [deleteTask, hq, hoid, hfind, hok], fun now b dl hval hdl => ?_⟩
      simp [patchTask, hq, hoid, hfind, hok, hval, hdl]

theorem claim_C8_witness :
    getTaskById [wTask] "zzz" false = ⟨400, .err "Invalid task id"⟩
    ∧ getTaskById [wTask] "aaaaaaaaaaaaaaaaaaaaaaaa" true = ⟨400, .err "Invalid task id"⟩
    ∧ deleteTask [wTask] "aaaaaaaaaaaaaaaaaaaaaaaa" (some "owner@x.com") true false
        = (⟨500, .err "Internal server error"⟩, [wTask])
    ∧ deleteTask [wTask] "aaaaaaaaaaaaaaaaaaaaaaaa" (some "owner@x.com") false true
        = (⟨500, .err "Internal server error"⟩, [wTask]) := by
  refine ⟨((claim_C8_amended_error_mapping [wTask] "zzz").1 (by decide)).1 false, ?_, ?_, ?_⟩
  · exact (claim_C8_amended_error_mapping [wTask] "aaaaaaaaaaaaaaaaaaaaaaaa").2.1
      wOid (by decide)
  · exact (((claim_C8_amended_error_mapping [wTask] "aaaaaaaaaaaaaaaaaaaaaaaa").2.2
      (some "owner@x.com") (by decide) wOid (by decide)).1) false
  · exact (((claim_C8_amended_error_mapping [wTask] "aaaaaaaaaaaaaaaaaaaaaaaa").2.2
      (some "owner@x.com") (by decide) wOid (by decide)).2.2 wTask (by decide)
      (by decide)).1

theorem claim_C10_witness :
    deleteTask [wOrphanTask] "bbbbbbbbbbbbbbbbbbbbbbbb" (some "anyone@x.com") false false
      = (⟨403, .err "Not allowed to delete this task"⟩, [wOrphanTask])
    ∧ patchTask 9 [wOrphanTask] "bbbbbbbbbbbbbbbbbbbbbbbb" (some "anyone@x.com")
        wPatch false false
      = (⟨403, .err "Not allowed to update this task"⟩, [wOrphanTask]) :=
  claim_C10_orphan_task_locked 9 [wOrphanTask] "bbbbbbbbbbbbbbbbbbbbbbbb" wOid2 wOrphanTask
    "anyone@x.com" wPatch (by decide) (by decide) (Or.inl rfl) (by decide)

/-- C3: POST /users with an absent or empty email returns 400 and
writes nothing; otherwise (for a string-typed email, as the API
contract specifies) it performs exactly one upsert keyed on the email
and returns an ok/created/email body, with status 201 and
`created = true` exactly when a new document was inserted, and status
200 and `created = false` when an existing document was updated. -/
theorem claim_C3_user_upsert (now : Int) (newId : OID) (s : List UserDoc) (b : UserBody) :
    ((b.email = .undef ∨ b.email = .null ∨ b.email = .str "") →
       postUsers now newId s b = (⟨400, .err "Email is required"⟩, s))
    ∧ (∀ e : String, b.email = .str e → e ≠ "" →
        (userFindByEmail s b.email = none →
          postUsers now newId s b
            = (⟨201, .okCreated true b.email⟩, s ++ [newUserDoc now newId b]))
        ∧ (∀ u, userFindByEmail s b.email = some u →
          postUsers now newId s b
            = (⟨200, .okCreated false b.email⟩,
               updateFirstUser s b.email (applyUserSet now b)))) := by
  constructor
  · rintro (h | h | h) <;> simp [postUsers, h, jsTruthy]
  · intro e he hne
    have htr : jsTruthy b.email = true := by rw [he]; simp [jsTruthy, hne]
    constructor
    · intro hnone
      simp [postUsers, htr, hnone]
    · intro u hu
      simp [postUsers, htr, hu]

theorem claim_C3_witness :
    postUsers 5 ⟨"aaaaaaaaaaaaaaaaaaaaaaaa"⟩ []
        ⟨.str "N", .str "a@x.com", .undef, .undef, .undef⟩
      = (⟨201, .okCreated true (.str "a@x.com")⟩,
         [] ++ [newUserDoc 5 ⟨"aaaaaaaaaaaaaaaaaaaaaaaa"⟩
                  ⟨.str "N", .str "a@x.com", .undef, .undef, .undef⟩]) :=
  ((claim_C3_user_upsert 5 ⟨"aaaaaaaaaaaaaaaaaaaaaaaa"⟩ []
      ⟨.str "N", .str "a@x.com", .undef, .undef, .undef⟩).2
    "a@x.com" rfl (by decide)).1 rfl

/-- C4: repeated POST /users calls with the same valid email are
idempotent with respect to final state: the first call on a store
without that email answers 201 / `created:true`, every subsequent call
answers 200 / `created:false`, and the stored document carries the
latest call's (defaulted) name, photo, bio and authProvider while
`createdAt` stays the value set by the first call. -/
theorem claim_C4_user_idempotence (e : String) (he : e ≠ "") (s0 : List UserDoc)
    (hs0 : userFindByEmail s0 (.str e) = none)
    (c0 : Int × OID × UserBody) (rest : List (Int × OID × UserBody))
    (hall : ∀ c ∈ c0 :: rest, (c.2.2).email = JsVal.str e) :
    (runPosts (c0 :: rest) s0).1 = (201, true) :: rest.map (fun _ => (200, false))
    ∧ ∃ u1, userFindByEmail (runPosts (c0 :: rest) s0).2 (.str e) = some u1
        ∧ u1.createdAt = c0.1
        ∧ (∀ c, (c0 :: rest).getLast? = some c →
            u1.name = jsDefault c.2.2.name (.str "")
            ∧ u1.photo = jsDefault c.2.2.photo (.str "")
            ∧ u1.bio = jsDefault c.2.2.bio (.str "")
            ∧ u1.authProvider = jsDefault c.2.2.authProvider (.str "password")
            ∧ u1.updatedAt = c.1) := by
  obtain ⟨now, nid, b⟩ := c0
  have hb : b.email = JsVal.str e := hall (now, nid, b) (by simp)
  have htr : jsTruthy b.email = true := by rw [hb]; simp [jsTruthy, he]
  have hs0b : userFindByEmail s0 b.email = none := by rw [hb]; exact hs0
  have hpost : postUsers now nid s0 b
      = (⟨201, .okCreated true b.email⟩, s0 ++ [newUserDoc now nid b]) := by
    simp [postUsers, htr, hs0b]
  have hfind1 : userFindByEmail (s0 ++ [newUserDoc now nid b]) (.str e)
      = some (newUserDoc now nid b) := by
    rw [← hb]
    exact userFind_append_of_none s0 b.email _ hs0b rfl
  have hrest := runPosts_existing e he rest (s0 ++ [newUserDoc now nid b])
    (newUserDoc now nid b) (fun c hc => hall c (by simp [hc])) hfind1
  constructor
  · show ((postUsers now nid s0 b).1.status,
        respCreated (postUsers now nid s0 b).1.body)
        :: (runPosts rest (postUsers now nid s0 b).2).1 = _
    rw [hpost]
    simpa [respCreated] using hrest.1
  · obtain ⟨u1, hu1, hcreated, hnilcase, hlast⟩ := hrest.2
    refine ⟨u1, ?_, hcreated, ?_⟩
    · show userFindByEmail (runPosts rest (postUsers now nid s0 b).2).2 _ = _
      rw [hpost]
      exact hu1
    · intro c hc
      match rest, hc with
      | [], hc =>
        have hceq : c = (now, nid, b) := by simpa using hc.symm
        subst hceq
        have hu1eq : u1 = newUserDoc now nid b := hnilcase rfl
        subst hu1eq
        exact ⟨rfl, rfl, rfl, rfl, rfl⟩
      | r2 :: rest2, hc =>
        exact hlast c (by rw [← List.getLast?_cons_cons (a := (now, nid, b))]; exact hc)

theorem claim_C4_witness :
    (runPosts [(1, ⟨"aaaaaaaaaaaaaaaaaaaaaaaa"⟩,
                  ⟨.str "N1", .str "a@x.com", .undef, .undef, .undef⟩),
               (2, ⟨"bbbbbbbbbbbbbbbbbbbbbbbb"⟩,
                  ⟨.str "N2", .str "a@x.com", .str "p2", .undef, .undef⟩)] []).1
      = [(201, true), (200, false)]
    ∧ ∃ u1, userFindByEmail
          (runPosts [(1, ⟨"aaaaaaaaaaaaaaaaaaaaaaaa"⟩,
                        ⟨.str "N1", .str "a@x.com", .undef, .undef, .undef⟩),
                     (2, ⟨"bbbbbbbbbbbbbbbbbbbbbbbb"⟩,
                        ⟨.str "N2", .str "a@x.com", .str "p2", .undef, .undef⟩)] []).2
          (.str "a@x.com") = some u1
        ∧ u1.createdAt = 1 ∧ u1.name = .str "N2" ∧ u1.photo = .str "p2"
        ∧ u1.updatedAt = 2 := by
  have h := claim_C4_user_idempotence "a@x.com" (by decide) [] rfl
    (1, ⟨"aaaaaaaaaaaaaaaaaaaaaaaa"⟩, ⟨.str "N1", .str "a@x.com", .undef, .undef, .undef⟩)
    [(2, ⟨"bbbbbbbbbbbbbbbbbbbbbbbb"⟩, ⟨.str "N2", .str "a@x.com", .str "p2", .undef, .undef⟩)]
    (by decide)
  obtain ⟨h1, u1, hu1, hcr, hlast⟩ := h
  obtain ⟨hn, hp, _, _, hupd⟩ := hlast _ rfl
  exact ⟨h1, u1, hu1, hcr, hn, hp, hupd⟩

/-- C5: GET /users/:email looks up the exact email first and only on a
miss retries with the lower-cased email; if both miss it answers 404,
and on success it returns exactly the seven public fields (the
`UserProj` projection contains no store identifier). -/
theorem claim_C5_user_lookup (s : List UserDoc) (rawEmail : String) (hne : rawEmail ≠ "") :
    (∀ u, userFindByEmail s (.str rawEmail) = some u →
       getUser s rawEmail = ⟨200, .userOut (projectUser u)⟩)
    ∧ (userFindByEmail s (.str rawEmail) = none →
        (∀ u, userFindByEmail s (.str (jsToLowerCase rawEmail)) = some u →
           getUser s rawEmail = ⟨200, .userOut (projectUser u)⟩)
        ∧ (userFindByEmail s (.str (jsToLowerCase rawEmail)) = none →
           getUser s rawEmail = ⟨404, .err "User not found"⟩)) := by
  refine ⟨fun u hu => ?_, fun hnone => ⟨fun u hu => ?_, fun hnone2 => ?_⟩⟩
  · simp [getUser, hne, hu]
  · simp [getUser, hne, hnone, hu]
  · simp [getUser, hne, hnone, hnone2]

theorem claim_C5_witness :
    getUser [⟨⟨"aaaaaaaaaaaaaaaaaaaaaaaa"⟩, .str "a@x.com", .str "N", .str "", .str "",
              .str "password", 1, 1⟩] "A@x.com"
      = ⟨200, .userOut (projectUser ⟨⟨"aaaaaaaaaaaaaaaaaaaaaaaa"⟩, .str "a@x.com", .str "N",
              .str "", .str "", .str "password", 1, 1⟩)⟩ :=
  ((claim_C5_user_lookup
      [⟨⟨"aaaaaaaaaaaaaaaaaaaaaaaa"⟩, .str "a@x.com", .str "N", .str "", .str "",
        .str "password", 1, 1⟩] "A@x.com" (by decide)).2 (by decide)).1 _ (by decide)

/-- C9: when POST /users hits an already-existing email, any of the
optional fields that is omitted from the body (undefined) is
overwritten in the stored document with its default — empty string for
name, photo and bio, "password" for authProvider — regardless of the
previously stored values. -/
theorem claim_C9_defaults_overwrite (now : Int) (newId : OID) (s : List UserDoc)
    (b : UserBody) (e : String) (u : UserDoc)
    (he : b.email = .str e) (hne : e ≠ "")
    (hfind : userFindByEmail s b.email = some u) :
    ∃ u2, userFindByEmail (postUsers now newId s b).2 b.email = some u2
      ∧ (b.name = .undef → u2.name = .str "")
      ∧ (b.photo = .undef → u2.photo = .str "")
      ∧ (b.bio = .undef → u2.bio = .str "")
      ∧ (b.authProvider = .undef → u2.authProvider = .str "password") := by
  have htr : jsTruthy b.email = true := by rw [he]; simp [jsTruthy, hne]
  have hstate : (postUsers now newId s b).2
      = updateFirstUser s b.email (applyUserSet now b) := by
    simp [postUsers, htr, hfind]
  rw [hstate]
  refine ⟨applyUserSet now b u, userFind_updateFirst s b.email _ u hfind rfl, ?_, ?_, ?_, ?_⟩ <;>
    intro h <;> simp [applyUserSet, jsDefault, h]

theorem claim_C9_witness :
    ∃ u2, userFindByEmail
        (postUsers 7 ⟨"bbbbbbbbbbbbbbbbbbbbbbbb"⟩
          [⟨⟨"aaaaaaaaaaaaaaaaaaaaaaaa"⟩, .str "a@x.com", .str "Old", .str "oldp",
            .str "oldbio", .str "google", 1, 1⟩]
          ⟨.undef, .str "a@x.com", .undef, .undef, .undef⟩).2 (.str "a@x.com") = some u2
      ∧ (JsVal.undef = JsVal.undef → u2.name = .str "")
      ∧ (JsVal.undef = JsVal.undef → u2.photo = .str "")
      ∧ (JsVal.undef = JsVal.undef → u2.bio = .str "")
      ∧ (JsVal.undef = JsVal.undef → u2.authProvider = .str "password") :=
  claim_C9_defaults_overwrite 7 ⟨"bbbbbbbbbbbbbbbbbbbbbbbb"⟩
    [⟨⟨"aaaaaaaaaaaaaaaaaaaaaaaa"⟩, .str "a@x.com", .str "Old", .str "oldp",
      .str "oldbio", .str "google", 1, 1⟩]
    ⟨.undef, .str "a@x.com", .undef, .undef, .undef⟩ "a@x.com"
    ⟨⟨"aaaaaaaaaaaaaaaaaaaaaaaa"⟩, .str "a@x.com", .str "Old", .str "oldp",
      .str "oldbio", .str "google", 1, 1⟩ rfl (by decide) (by decide)

end FreeServer
